import Mathlib

/-!
Verification development for the `oauth-client-rs` OAuth 1.0 signing library
(`src/lib.rs`).  Rust strings are modelled as their UTF-8 byte sequences
(`List Nat`, each element a byte value); `HashMap` parameter lists are
modelled as association lists together with the hash-map insertion
(replace-or-append) operation, and the outputs are shown to be independent
of iteration order where the source sorts.  External crates used by the
source (`percent_encoding`, `ring`'s HMAC-SHA1, `base64`) are modelled by
executable Lean functions implementing their documented algorithms.
-/

namespace OauthClient

/-- A Rust string / byte buffer: its sequence of UTF-8 byte values. -/
abbrev Bytes := List Nat

/-- A `ParamList` (`HashMap<Cow<str>, Cow<str>>`) modelled as an association
list of key/value byte strings; hash-map key uniqueness is carried as a
`Nodup` hypothesis where a theorem needs it. -/
abbrev Param := List (Bytes × Bytes)

/-! ### Byte-wise lexicographic order (Rust `String`/`Vec<u8>` `Ord`) -/

/-- Byte-wise lexicographic comparison of byte strings, the order used by
Rust's `sort` on `Vec<String>` (`str` orders by UTF-8 bytes). -/
def lexLe : Bytes → Bytes → Bool
  | [], _ => true
  | _ :: _, [] => false
  | a :: as, b :: bs => if a < b then true else if b < a then false else lexLe as bs

/-- The propositional form of `lexLe`, used with `List.insertionSort`. -/
def lexRel (a b : Bytes) : Prop := lexLe a b = true

instance : DecidableRel lexRel := fun a b => inferInstanceAs (Decidable (lexLe a b = true))

theorem lexLe_total : ∀ a b : Bytes, lexLe a b = true ∨ lexLe b a = true
  | [], _ => Or.inl rfl
  | _ :: _, [] => Or.inr rfl
  | a :: as, b :: bs => by
    simp only [lexLe]
    rcases Nat.lt_trichotomy a b with h | h | h
    · left; simp [h]
    · subst h
      simpa [Nat.lt_irrefl] using lexLe_total as bs
    · right; simp [h, Nat.not_lt.mpr (Nat.le_of_lt h)]

theorem lexLe_trans : ∀ {x y z : Bytes}, lexLe x y = true → lexLe y z = true → lexLe x z = true
  | [], _, _, _, _ => rfl
  | _ :: _, [], _, hxy, _ => by simp [lexLe] at hxy
  | _ :: _, _ :: _, [], _, hyz => by simp [lexLe] at hyz
  | a :: as, b :: bs, c :: cs, hxy, hyz => by
    simp only [lexLe] at hxy hyz ⊢
    split_ifs at hxy hyz ⊢ <;>
      first
      | rfl
      | exact absurd hxy Bool.false_ne_true
      | exact absurd hyz Bool.false_ne_true
      | (exfalso; omega)
      | exact lexLe_trans hxy hyz

theorem lexLe_antisymm : ∀ {x y : Bytes}, lexLe x y = true → lexLe y x = true → x = y
  | [], [], _, _ => rfl
  | [], _ :: _, _, hyx => by simp [lexLe] at hyx
  | _ :: _, [], hxy, _ => by simp [lexLe] at hxy
  | a :: as, b :: bs, hxy, hyx => by
    simp only [lexLe] at hxy hyx
    split_ifs at hxy hyx with h1 h2 <;> first
    | exact absurd hxy Bool.false_ne_true
    | exact absurd hyx Bool.false_ne_true
    | (exfalso; omega)
    | (have hab : a = b := by omega
       cases hab
       exact congrArg (a :: ·) (lexLe_antisymm hxy hyx))

instance : IsTotal Bytes lexRel := ⟨lexLe_total⟩

instance : IsTrans Bytes lexRel := ⟨fun _ _ _ => lexLe_trans⟩

instance : IsAntisymm Bytes lexRel := ⟨fun _ _ => lexLe_antisymm⟩

/-- Model of `Vec<String>::sort()`: sort byte strings lexicographically. -/
def sortStrings (l : List Bytes) : List Bytes := List.insertionSort lexRel l

/-- `Vec::join(sep)`: concatenate with a separator between elements. -/
def joinWith (sep : Bytes) : List Bytes → Bytes
  | [] => []
  | [x] => x
  | x :: y :: rest => x ++ sep ++ joinWith sep (y :: rest)

/-! ### Percent encoder (`encode`, via the `percent_encoding` crate) -/

/-- ASCII alphanumeric test on a byte, as used by
`percent_encoding::NON_ALPHANUMERIC`. -/
def isAsciiAlphanumericByte (b : Nat) : Bool :=
  decide ((65 ≤ b ∧ b ≤ 90) ∨ (97 ≤ b ∧ b ≤ 122) ∨ (48 ≤ b ∧ b ≤ 57))

/-- Model of the `percent_encoding::NON_ALPHANUMERIC` `AsciiSet` as a
predicate on ASCII byte values. -/
def NON_ALPHANUMERIC (b : Nat) : Bool := !isAsciiAlphanumericByte b

/-- Model of `percent_encoding::AsciiSet::remove`. -/
def removeSet (set : Nat → Bool) (c : Nat) : Nat → Bool :=
  fun b => if b = c then false else set b

/-- The `URL` set from the source: `NON_ALPHANUMERIC` with `-`, `.`, `_`,
`~` removed (RFC 3986 section 2.3 unreserved characters kept verbatim). -/
def URL : Nat → Bool := removeSet (removeSet (removeSet (removeSet NON_ALPHANUMERIC 45) 46) 95) 126

/-- Uppercase hexadecimal digit byte for a nibble, as emitted by the
`percent_encoding` crate. -/
def upperHexDigit (n : Nat) : Nat := if n < 10 then 48 + n else 55 + n

/-- The three-byte `%XX` escape for a byte. -/
def escapeByte (b : Nat) : Bytes := [37, upperHexDigit (b / 16), upperHexDigit (b % 16)]

/-- Model of one step of `percent_encoding::percent_encode`: a byte is
escaped when it is non-ASCII (the crate always escapes bytes ≥ 0x80) or a
member of the given `AsciiSet`; otherwise it passes through unchanged. -/
def percentEncodeByte (set : Nat → Bool) (b : Nat) : Bytes :=
  if 128 ≤ b then escapeByte b
  else if set b then escapeByte b
  else [b]

/-- `fn encode(s: &str) -> String`: percent-encode every byte of the input
with the `URL` set. -/
def encode (s : Bytes) : Bytes := s.flatMap (percentEncodeByte URL)

/-! ### Specification-side descriptions of the encoder output -/

/-- The RFC 3986 unreserved set `A-Z a-z 0-9 - . _ ~`, as the spec's words
describe it (used to compare against the source's `URL` set). -/
def isUnreservedByte (b : Nat) : Bool :=
  decide ((65 ≤ b ∧ b ≤ 90) ∨ (97 ≤ b ∧ b ≤ 122) ∨ (48 ≤ b ∧ b ≤ 57) ∨
    b = 45 ∨ b = 46 ∨ b = 95 ∨ b = 126)

/-- A byte that is a digit or an uppercase hexadecimal letter `A`-`F`. -/
def isHexUpperByte (d : Nat) : Bool := decide ((48 ≤ d ∧ d ≤ 57) ∨ (65 ≤ d ∧ d ≤ 70))

/-- The per-byte encoder as the spec describes it: unreserved bytes pass
through, every other byte becomes `%XX` with uppercase hex digits. -/
def encodeByteSpec (b : Nat) : Bytes :=
  if isUnreservedByte b then [b] else [37, upperHexDigit (b / 16), upperHexDigit (b % 16)]

/-- Checks that a byte string is a well-formed percent-encoded string:
every byte is either unreserved or part of a `%XX` escape with uppercase
hexadecimal digits. -/
def PercentEncodedB : Bytes → Bool
  | [] => true
  | b :: rest =>
    if b = 37 then
      match rest with
      | h1 :: h2 :: rest2 => isHexUpperByte h1 && isHexUpperByte h2 && PercentEncodedB rest2
      | _ => false
    else isUnreservedByte b && PercentEncodedB rest

/-- Value of a hexadecimal digit byte (digits and uppercase letters). -/
def hexVal (d : Nat) : Nat := if d < 58 then d - 48 else d - 55

/-- The standard percent-decoder (the inverse direction of RFC 3986
percent-encoding, not part of the source): a `%XX` triple decodes to the
byte it denotes, any other byte passes through. -/
def pdecode : Bytes → Bytes
  | [] => []
  | b :: rest =>
    if b = 37 then
      match rest with
      | h1 :: h2 :: rest2 => (16 * hexVal h1 + hexVal h2) :: pdecode rest2
      | [h1] => b :: h1 :: pdecode []
      | [] => b :: pdecode []
    else b :: pdecode rest

/-! ### Canonical query, header and body construction -/

/-- ASCII constants appearing in the source (`"oauth_"` etc.). -/
def oauthTag : Bytes := [111, 97, 117, 116, 104, 95]

def kOauthConsumerKey : Bytes := [111, 97, 117, 116, 104, 95, 99, 111, 110, 115, 117, 109, 101, 114, 95, 107, 101, 121]

def kOauthNonce : Bytes := [111, 97, 117, 116, 104, 95, 110, 111, 110, 99, 101]

def kOauthSignatureMethod : Bytes := [111, 97, 117, 116, 104, 95, 115, 105, 103, 110, 97, 116, 117, 114, 101, 95, 109, 101, 116, 104, 111, 100]

def kOauthTimestamp : Bytes := [111, 97, 117, 116, 104, 95, 116, 105, 109, 101, 115, 116, 97, 109, 112]

def kOauthVersion : Bytes := [111, 97, 117, 116, 104, 95, 118, 101, 114, 115, 105, 111, 110]

def kOauthToken : Bytes := [111, 97, 117, 116, 104, 95, 116, 111, 107, 101, 110]

def kOauthSignature : Bytes := [111, 97, 117, 116, 104, 95, 115, 105, 103, 110, 97, 116, 117, 114, 101]

/-- `"HMAC-SHA1"`. -/
def vHmacSha1 : Bytes := [72, 77, 65, 67, 45, 83, 72, 65, 49]

/-- `"1.0"`. -/
def vOneDotZero : Bytes := [49, 46, 48]

/-- `"OAuth "`. -/
def litOAuthSpace : Bytes := [79, 65, 117, 116, 104, 32]

/-- Rust `k.starts_with("oauth_")` on the UTF-8 bytes of the key. -/
def startsWithOauth (k : Bytes) : Bool := oauthTag.isPrefixOf k

/-- One rendered pair of `join_query`: `format!("{}={}", encode(k), encode(v))`. -/
def renderQueryEntry (kv : Bytes × Bytes) : Bytes := encode kv.1 ++ [61] ++ encode kv.2

/-- The sorted rendered pairs of `join_query`. -/
def queryPairs (param : Param) : List Bytes := sortStrings (param.map renderQueryEntry)

/-- `fn join_query`: render each pair as `encode(k)=encode(v)`, sort the
rendered pairs, join them with `&`. -/
def join_query (param : Param) : Bytes := joinWith [38] (queryPairs param)

/-- The `oauth_`-prefixed entries selected by `fn header`'s filter. -/
def headerSel (param : Param) : Param := param.filter fun kv => startsWithOauth kv.1

/-- The remaining entries selected by `fn body`'s filter. -/
def bodySel (param : Param) : Param := param.filter fun kv => !startsWithOauth kv.1

/-- One rendered header entry: `format!("{}=\x22{}\x22", k, encode(v))`
(the key is kept raw, the value is encoded and double-quoted). -/
def renderHeaderEntry (kv : Bytes × Bytes) : Bytes := kv.1 ++ [61, 34] ++ encode kv.2 ++ [34]

/-- One rendered body entry: `format!("{}={}", k, encode(v))`. -/
def renderBodyEntry (kv : Bytes × Bytes) : Bytes := kv.1 ++ [61] ++ encode kv.2

/-- The sorted rendered header entries. -/
def headerPairs (param : Param) : List Bytes := sortStrings ((headerSel param).map renderHeaderEntry)

/-- `fn header`: the `oauth_` entries, rendered, sorted, joined by `", "`,
prefixed by the literal `"OAuth "`. -/
def header (param : Param) : Bytes := litOAuthSpace ++ joinWith [44, 32] (headerPairs param)

/-- The sorted rendered body entries. -/
def bodyPairs (param : Param) : List Bytes := sortStrings ((bodySel param).map renderBodyEntry)

/-- `fn body`: the non-`oauth_` entries, rendered, sorted, joined by `&`. -/
def body (param : Param) : Bytes := joinWith [38] (bodyPairs param)

/-! ### SHA-1, HMAC-SHA1 and base64 (models of `ring::hmac` / `base64`) -/

/-- Truncation to a 32-bit word. -/
def w32 (n : Nat) : Nat := n % 4294967296

/-- 32-bit left rotation. -/
def rotl32 (x n : Nat) : Nat := w32 (x * 2 ^ n) + w32 x / 2 ^ (32 - n)

/-- 32-bit bitwise complement. -/
def not32 (x : Nat) : Nat := 4294967295 - w32 x

/-- The SHA-1 round function `f_t` (RFC 3174). -/
def sha1F (t b c d : Nat) : Nat :=
  if t < 20 then (b &&& c) ||| (not32 b &&& d)
  else if t < 40 then (b ^^^ c) ^^^ d
  else if t < 60 then ((b &&& c) ||| (b &&& d)) ||| (c &&& d)
  else (b ^^^ c) ^^^ d

/-- The SHA-1 round constants `K_t`. -/
def sha1K (t : Nat) : Nat :=
  if t < 20 then 1518500249
  else if t < 40 then 1859775393
  else if t < 60 then 2400959708
  else 3395469782

/-- One step of the SHA-1 message-schedule expansion: append
`rotl1(W[n-3] xor W[n-8] xor W[n-14] xor W[n-16])`. -/
def sha1ExpandStep (ws : List Nat) : List Nat :=
  ws ++ [rotl32 ((ws.getD (ws.length - 3) 0 ^^^ ws.getD (ws.length - 8) 0) ^^^
                 (ws.getD (ws.length - 14) 0 ^^^ ws.getD (ws.length - 16) 0)) 1]

/-- Iterate a list transformer `n` times. -/
def iterN (f : List Nat → List Nat) : Nat → List Nat → List Nat
  | 0, a => a
  | n + 1, a => iterN f n (f a)

/-- One SHA-1 compression round on the five-word state. -/
def sha1Round (w : List Nat) (st : Nat × Nat × Nat × Nat × Nat) (t : Nat) :
    Nat × Nat × Nat × Nat × Nat :=
  (w32 (rotl32 st.1 5 + sha1F t st.2.1 st.2.2.1 st.2.2.2.1 + st.2.2.2.2 + sha1K t + w.getD t 0),
    st.1, rotl32 st.2.1 30, st.2.2.1, st.2.2.2.1)

/-- SHA-1 compression of one 16-word block into the five-word chaining
state. -/
def sha1Compress (h : List Nat) (block : List Nat) : List Nat :=
  let w := iterN sha1ExpandStep 64 block
  let fin := (List.range 80).foldl (sha1Round w)
    (h.getD 0 0, h.getD 1 0, h.getD 2 0, h.getD 3 0, h.getD 4 0)
  [w32 (h.getD 0 0 + fin.1), w32 (h.getD 1 0 + fin.2.1), w32 (h.getD 2 0 + fin.2.2.1),
    w32 (h.getD 3 0 + fin.2.2.2.1), w32 (h.getD 4 0 + fin.2.2.2.2)]

/-- Big-endian byte rendering of a number into `len` bytes. -/
def natToBytesBE (len n : Nat) : Bytes :=
  (List.range len).map fun i => n / 2 ^ (8 * (len - 1 - i)) % 256

/-- SHA-1 message padding: `0x80`, zeros to 56 mod 64, then the bit length
as eight big-endian bytes. -/
def sha1Pad (msg : Bytes) : Bytes :=
  msg ++ 128 :: List.replicate ((64 + 55 - msg.length % 64) % 64) 0 ++
    natToBytesBE 8 (msg.length * 8)

/-- Group bytes into big-endian 32-bit words. -/
def bytesToWords : Bytes → List Nat
  | b0 :: b1 :: b2 :: b3 :: rest => (((b0 * 256 + b1) * 256 + b2) * 256 + b3) :: bytesToWords rest
  | _ => []

/-- Render 32-bit words back to big-endian bytes. -/
def wordsToBytes : List Nat → Bytes
  | [] => []
  | w :: rest => natToBytesBE 4 w ++ wordsToBytes rest

/-- Split a word list into `n` chunks of 16 words. -/
def chunksWords : Nat → List Nat → List (List Nat)
  | 0, _ => []
  | n + 1, ws => ws.take 16 :: chunksWords n (ws.drop 16)

/-- The SHA-1 digest (20 bytes) of a byte string (RFC 3174). -/
def sha1 (msg : Bytes) : Bytes :=
  let ws := bytesToWords (sha1Pad msg)
  wordsToBytes ((chunksWords (ws.length / 16) ws).foldl sha1Compress
    [1732584193, 4023233417, 2562383102, 271733878, 3285377520])

/-- HMAC key normalization: keys longer than the 64-byte block are hashed,
then the key is zero-padded to 64 bytes. -/
def hmacKeyBlock (key : Bytes) : Bytes :=
  let k0 := if 64 < key.length then sha1 key else key
  k0 ++ List.replicate (64 - k0.length) 0

/-- Model of `ring::hmac::sign` with `HMAC_SHA1_FOR_LEGACY_USE_ONLY`
(RFC 2104): `sha1(key xor opad ++ sha1(key xor ipad ++ msg))`. -/
def hmacSha1 (key msg : Bytes) : Bytes :=
  let kb := hmacKeyBlock key
  sha1 ((kb.map fun b => b ^^^ 92) ++ sha1 ((kb.map fun b => b ^^^ 54) ++ msg))

/-- A character of the standard base64 alphabet. -/
def base64Char (n : Nat) : Nat :=
  if n < 26 then 65 + n
  else if n < 52 then 71 + n
  else if n < 62 then n - 4
  else if n = 62 then 43
  else 47

/-- Model of `base64::encode` (the standard alphabet, `=` padding). -/
def base64Encode : Bytes → Bytes
  | b0 :: b1 :: b2 :: rest =>
    [base64Char (b0 / 4), base64Char (b0 % 4 * 16 + b1 / 16),
     base64Char (b1 % 16 * 4 + b2 / 64), base64Char (b2 % 64)] ++ base64Encode rest
  | [b0, b1] => [base64Char (b0 / 4), base64Char (b0 % 4 * 16 + b1 / 16), base64Char (b1 % 16 * 4), 61]
  | [b0] => [base64Char (b0 / 4), base64Char (b0 % 4 * 16), 61, 61]
  | [] => []

/-- `fn signature`: base string `encode(method)&encode(uri)&encode(query)`,
key `encode(consumer_secret)&encode(token_secret.unwrap_or(""))`, result
`base64::encode(hmac_sha1(key, base))`. -/
def signature (method uri query consumer_secret : Bytes) (token_secret : Option Bytes) : Bytes :=
  let base := encode method ++ [38] ++ encode uri ++ [38] ++ encode query
  let key := encode consumer_secret ++ [38] ++ encode (token_secret.getD [])
  base64Encode (hmacSha1 key base)

/-! ### Parameter map and `get_header` -/

/-- `Token { key, secret }`. -/
structure Token where
  key : Bytes
  secret : Bytes

/-- `fn insert_param` / `HashMap::insert` on the association-list model:
replace the value at an existing key, otherwise add the binding. -/
def insert_param : Param → Bytes → Bytes → Param
  | [], k, v => [(k, v)]
  | kv :: rest, k, v => if kv.1 = k then (k, v) :: rest else kv :: insert_param rest k v

/-- `HashMap::get` on the association-list model. -/
def lookupP : Param → Bytes → Option Bytes
  | [], _ => none
  | kv :: rest, k => if kv.1 = k then some kv.2 else lookupP rest k

/-- The keys of a parameter list. -/
def keys (p : Param) : List Bytes := p.map fun kv => kv.1

/-- Folding a list of caller parameters into the map, modelling the
`for (k, v) in ps.iter()` insertion loop. -/
def insertAll (p : Param) (l : Param) : Param :=
  l.foldl (fun acc kv => insert_param acc kv.1 kv.2) p

/-- The protocol parameters inserted by `get_header` before the caller's
parameters, with the nonce and timestamp strings injected. -/
def protoParams (consumer : Token) (token : Option Token) (nonce ts : Bytes) : Param :=
  let p5 := insert_param (insert_param (insert_param (insert_param (insert_param []
    kOauthConsumerKey consumer.key) kOauthNonce nonce) kOauthSignatureMethod vHmacSha1)
    kOauthTimestamp ts) kOauthVersion vOneDotZero
  match token with
  | some tk => insert_param p5 kOauthToken tk.key
  | none => p5

/-- The parameter map at the moment the signature is computed: protocol
parameters overridden by the caller-supplied parameters. -/
def allParams (consumer : Token) (token : Option Token) (other : Option Param)
    (nonce ts : Bytes) : Param :=
  match other with
  | some ps => insertAll (protoParams consumer token nonce ts) ps
  | none => protoParams consumer token nonce ts

/-- The parameter map after `oauth_signature` is inserted. -/
def finalParams (method uri : Bytes) (consumer : Token) (token : Option Token)
    (other : Option Param) (nonce ts : Bytes) : Param :=
  let p7 := allParams consumer token other nonce ts
  insert_param p7 kOauthSignature
    (signature method uri (join_query p7) consumer.secret (token.map Token.secret))

/-- `fn get_header` with the generated nonce and timestamp strings
injected as arguments (the source draws them from the thread RNG and the
UTC wall clock; every other step is pure). -/
def get_header (method uri : Bytes) (consumer : Token) (token : Option Token)
    (other : Option Param) (nonce ts : Bytes) : Bytes × Bytes :=
  let p8 := finalParams method uri consumer token other nonce ts
  (header p8, body p8)

/-- `pub fn authorization_header`: delegates to `get_header`. -/
def authorization_header (method uri : Bytes) (consumer : Token) (token : Option Token)
    (other : Option Param) (nonce ts : Bytes) : Bytes × Bytes :=
  get_header method uri consumer token other nonce ts

/-! ### The transport boundary (`fn send`) -/

/-- An HTTP response as the claim's granularity sees it: a numeric status
code and the payload bytes. -/
structure HttpResponse where
  status : Nat
  bytes : Bytes
deriving DecidableEq

/-- The error taxonomy of the crate: `HttpStatusError(u16)` for a
non-success status, or a transport failure propagated unchanged. -/
inductive OauthError where
  | httpStatus (code : Nat)
  | transport (e : Bytes)
deriving DecidableEq

/-- `async fn send`: a transport failure is propagated unchanged; a
response with a status other than `200 OK` becomes
`HttpStatusError(status)`; a `200` response yields the payload bytes. -/
def send (r : Except Bytes HttpResponse) : Except OauthError Bytes :=
  match r with
  | .error e => .error (.transport e)
  | .ok resp => if resp.status = 200 then .ok resp.bytes else .error (.httpStatus resp.status)

/-! ### Specification-side rendering used to settle claim C5 -/

/-- Key-based comparison of parameter entries, as the spec's words "sorted
by key" describe. -/
def keyRel (x y : Bytes × Bytes) : Prop := lexLe x.1 y.1 = true

instance : DecidableRel keyRel := fun x y => inferInstanceAs (Decidable (lexLe x.1 y.1 = true))

/-- Modelled from the spec's words for the body output: the non-`oauth_`
entries sorted by raw key (not by rendered entry), then rendered and
joined by `&`. -/
def bodyByKey (param : Param) : Bytes :=
  joinWith [38] ((List.insertionSort keyRel (bodySel param)).map renderBodyEntry)

/-! ### Lemmas about the percent encoder -/

/-- The source's `URL` set test agrees pointwise with the unreserved-set
description: a byte passes through `percent_encode` unchanged exactly when
it is in `A-Z a-z 0-9 - . _ ~`. -/
theorem percentEncodeByte_eq_spec (b : Nat) : percentEncodeByte URL b = encodeByteSpec b := by
  rcases Nat.lt_or_ge b 128 with h | h
  · revert h
    exact (by decide : ∀ b : Nat, b < 128 → percentEncodeByte URL b = encodeByteSpec b) b
  · have hset : isUnreservedByte b = false := by
      simp only [isUnreservedByte, decide_eq_false_iff_not]
      omega
    simp [percentEncodeByte, encodeByteSpec, escapeByte, hset, Nat.le_of_lt, h,
      Nat.not_lt.mp (Nat.not_lt.mpr h)]

theorem encode_eq_spec (s : Bytes) : encode s = s.flatMap encodeByteSpec := by
  induction s with
  | nil => rfl
  | cons b rest ih =>
    simp [encode, List.flatMap_cons, percentEncodeByte_eq_spec b, ← ih]

theorem encode_nil : encode [] = [] := rfl

theorem encode_cons (b : Nat) (rest : Bytes) :
    encode (b :: rest) = encodeByteSpec b ++ encode rest := by
  rw [encode_eq_spec, List.flatMap_cons, ← encode_eq_spec]

theorem encode_unreserved_eq_self {s : Bytes} (h : s.all isUnreservedByte = true) :
    encode s = s := by
  induction s with
  | nil => rfl
  | cons b rest ih =>
    simp only [List.all_cons, Bool.and_eq_true] at h
    rw [encode_cons, encodeByteSpec, if_pos h.1, ih h.2]
    rfl

theorem isHexUpperByte_upperHexDigit {n : Nat} (h : n < 16) :
    isHexUpperByte (upperHexDigit n) = true := by
  simp only [isHexUpperByte, upperHexDigit, decide_eq_true_eq]
  split_ifs <;> omega

theorem hexVal_upperHexDigit {n : Nat} (h : n < 16) : hexVal (upperHexDigit n) = n := by
  simp only [hexVal, upperHexDigit]
  split_ifs <;> omega

/-! ### Claim theorems -/

/-- C1.  For every method `m`, uri `u`, canonical parameter string `q`,
consumer secret `cs` and optional token secret, `signature` returns the
base64 encoding of the HMAC-SHA1 digest computed with key
`encode(cs) ++ "&" ++ encode(token secret, or the empty encoding when no
token is present)` over the message
`encode(m) ++ "&" ++ encode(u) ++ "&" ++ encode(q)`; with no token the
signing key is `encode(cs)` followed by a single trailing `&`. -/
theorem signature_is_base64_hmac_sha1 :
    (∀ m u q cs ts : Bytes,
      signature m u q cs (some ts) =
        base64Encode (hmacSha1 (encode cs ++ [38] ++ encode ts)
          (encode m ++ [38] ++ encode u ++ [38] ++ encode q)))
    ∧ (∀ m u q cs : Bytes,
      signature m u q cs none =
        base64Encode (hmacSha1 (encode cs ++ [38])
          (encode m ++ [38] ++ encode u ++ [38] ++ encode q))) := by
  constructor
  · intro m u q cs ts
    rfl
  · intro m u q cs
    simp [signature, Option.getD, encode_nil]

/-- C2.  `encode` maps every byte of the input through `encodeByteSpec`:
unreserved bytes (`A-Z a-z 0-9 - . _ ~`) pass through unchanged and every
other byte becomes a three-byte `%XX` escape whose two hex digits are
drawn from `0-9 A-F`; concretely `encode("GET") = "GET"`,
`encode("http://oauthbin.com/v1/request-token")` is the expected escaped
string, and `=` and `&` encode to `%3D` and `%26`. -/
theorem encode_contract :
    (∀ s : Bytes, encode s = s.flatMap encodeByteSpec)
    ∧ (∀ b : Nat, isUnreservedByte b = true → encodeByteSpec b = [b])
    ∧ (∀ b : Nat, b < 256 → isUnreservedByte b = false →
        encodeByteSpec b = [37, upperHexDigit (b / 16), upperHexDigit (b % 16)]
        ∧ isHexUpperByte (upperHexDigit (b / 16)) = true
        ∧ isHexUpperByte (upperHexDigit (b % 16)) = true)
    ∧ encode [71, 69, 84] = [71, 69, 84]
    ∧ encode [104, 116, 116, 112, 58, 47, 47, 111, 97, 117, 116, 104, 98, 105, 110, 46, 99,
        111, 109, 47, 118, 49, 47, 114, 101, 113, 117, 101, 115, 116, 45, 116, 111, 107, 101,
        110] =
      [104, 116, 116, 112, 37, 51, 65, 37, 50, 70, 37, 50, 70, 111, 97, 117, 116, 104, 98,
        105, 110, 46, 99, 111, 109, 37, 50, 70, 118, 49, 37, 50, 70, 114, 101, 113, 117, 101,
        115, 116, 45, 116, 111, 107, 101, 110]
    ∧ encode [61] = [37, 51, 68] ∧ encode [38] = [37, 50, 54] := by
  refine ⟨encode_eq_spec, ?_, ?_, by decide, by decide, by decide, by decide⟩
  · intro b hb
    simp [encodeByteSpec, hb]
  · intro b hb256 hb
    refine ⟨by simp [encodeByteSpec, hb], isHexUpperByte_upperHexDigit ?_,
      isHexUpperByte_upperHexDigit ?_⟩ <;> omega

/-- Witness for C2: the escape branch evaluated at the byte `=` (61). -/
theorem encode_contract_witness :
    encodeByteSpec 61 = [37, upperHexDigit (61 / 16), upperHexDigit (61 % 16)]
    ∧ isHexUpperByte (upperHexDigit (61 / 16)) = true
    ∧ isHexUpperByte (upperHexDigit (61 % 16)) = true :=
  encode_contract.2.2.1 61 (by decide) (by decide)

theorem PercentEncodedB_cons_ne {b : Nat} (hb : b ≠ 37) (rest : Bytes) :
    PercentEncodedB (b :: rest) = (isUnreservedByte b && PercentEncodedB rest) := by
  conv_lhs => unfold PercentEncodedB
  rw [if_neg hb]

theorem PercentEncodedB_escape (h1 h2 : Nat) (rest : Bytes) :
    PercentEncodedB (37 :: h1 :: h2 :: rest) =
      (isHexUpperByte h1 && isHexUpperByte h2 && PercentEncodedB rest) := rfl

/-- The output of `encode` is a well-formed percent-encoded string: every
byte is unreserved or sits inside a `%XX` escape with uppercase hex
digits. -/
theorem PercentEncodedB_encode {s : Bytes} (h : ∀ b ∈ s, b < 256) :
    PercentEncodedB (encode s) = true := by
  induction s with
  | nil => rfl
  | cons b rest ih =>
    have hb256 : b < 256 := h b (List.mem_cons_self b rest)
    have hrest : PercentEncodedB (encode rest) = true :=
      ih fun x hx => h x (List.mem_cons_of_mem b hx)
    rw [encode_cons]
    by_cases hu : isUnreservedByte b = true
    · have hb37 : b ≠ 37 := by
        intro he
        rw [he] at hu
        exact absurd hu (by decide)
      simp [encodeByteSpec, hu, PercentEncodedB_cons_ne hb37, hrest]
    · have hu' : isUnreservedByte b = false := by
        simpa using hu
      simp [encodeByteSpec, hu', PercentEncodedB_escape, hrest,
        isHexUpperByte_upperHexDigit (show b / 16 < 16 by omega),
        isHexUpperByte_upperHexDigit (show b % 16 < 16 by omega)]

theorem pdecode_cons_ne {b : Nat} (hb : b ≠ 37) (rest : Bytes) :
    pdecode (b :: rest) = b :: pdecode rest := by
  conv_lhs => unfold pdecode
  rw [if_neg hb]

theorem pdecode_escape (h1 h2 : Nat) (rest : Bytes) :
    pdecode (37 :: h1 :: h2 :: rest) = (16 * hexVal h1 + hexVal h2) :: pdecode rest := rfl

/-- Percent-decoding the output of `encode` restores the original bytes. -/
theorem pdecode_encode {s : Bytes} (h : ∀ b ∈ s, b < 256) : pdecode (encode s) = s := by
  induction s with
  | nil => rfl
  | cons b rest ih =>
    have hb256 : b < 256 := h b (List.mem_cons_self b rest)
    have hrest : pdecode (encode rest) = rest :=
      ih fun x hx => h x (List.mem_cons_of_mem b hx)
    rw [encode_cons]
    by_cases hu : isUnreservedByte b = true
    · have hb37 : b ≠ 37 := by
        intro he
        rw [he] at hu
        exact absurd hu (by decide)
      simp [encodeByteSpec, hu, pdecode_cons_ne hb37, hrest]
    · have hu' : isUnreservedByte b = false := by
        simpa using hu
      have hround : 16 * hexVal (upperHexDigit (b / 16)) + hexVal (upperHexDigit (b % 16)) = b := by
        rw [hexVal_upperHexDigit (show b / 16 < 16 by omega),
          hexVal_upperHexDigit (show b % 16 < 16 by omega)]
        omega
      simp [encodeByteSpec, hu', pdecode_escape, hrest, hround]

/-- C3.  `join_query` returns the `encode(key)=encode(value)` pairs joined
by `&`, ordered by byte-wise lexicographic comparison of each whole
rendered pair (the output list is sorted under `lexRel` and is a
permutation of the rendered pairs); every rendered side is a well-formed
percent-encoded string over the unreserved alphabet; and the parameter
set `{aaa: AAA, bbbb: BBBB}` canonicalizes to exactly
`"aaa=AAA&bbbb=BBBB"`. -/
theorem join_query_canonical :
    (∀ param : Param,
      join_query param = joinWith [38] (queryPairs param)
      ∧ List.Sorted lexRel (queryPairs param)
      ∧ (queryPairs param).Perm (param.map renderQueryEntry)
      ∧ (∀ kv ∈ param, (∀ b ∈ kv.1, b < 256) → (∀ b ∈ kv.2, b < 256) →
          renderQueryEntry kv = encode kv.1 ++ [61] ++ encode kv.2
          ∧ PercentEncodedB (encode kv.1) = true ∧ PercentEncodedB (encode kv.2) = true))
    ∧ join_query [([97, 97, 97], [65, 65, 65]), ([98, 98, 98, 98], [66, 66, 66, 66])] =
        [97, 97, 97, 61, 65, 65, 65, 38, 98, 98, 98, 98, 61, 66, 66, 66, 66]
    ∧ join_query [([98, 98, 98, 98], [66, 66, 66, 66]), ([97, 97, 97], [65, 65, 65])] =
        [97, 97, 97, 61, 65, 65, 65, 38, 98, 98, 98, 98, 61, 66, 66, 66, 66] := by
  refine ⟨fun param => ⟨rfl, ?_, ?_, ?_⟩, by decide, by decide⟩
  · exact List.sorted_insertionSort lexRel _
  · exact List.perm_insertionSort lexRel _
  · intro kv _ h1 h2
    exact ⟨rfl, PercentEncodedB_encode h1, PercentEncodedB_encode h2⟩

/-- Witness for C3: the rendered-pair breakdown evaluated on the
`{aaa: AAA}` entry of the concrete scenario. -/
theorem join_query_canonical_witness :
    renderQueryEntry ([97, 97, 97], [65, 65, 65]) =
      encode [97, 97, 97] ++ [61] ++ encode [65, 65, 65]
    ∧ PercentEncodedB (encode [97, 97, 97]) = true
    ∧ PercentEncodedB (encode [65, 65, 65]) = true :=
  (join_query_canonical.1 [([97, 97, 97], [65, 65, 65])]).2.2.2
    ([97, 97, 97], [65, 65, 65]) (by decide) (by decide) (by decide)

/-- C8.  `encode` leaves strings of unreserved bytes unchanged (hence is
idempotent on them), and percent-decoding an encoded string restores the
original bytes. -/
theorem encode_idempotent_and_invertible :
    (∀ s : Bytes, s.all isUnreservedByte = true →
      encode s = s ∧ encode (encode s) = encode s)
    ∧ (∀ s : Bytes, (∀ b ∈ s, b < 256) → pdecode (encode s) = s) := by
  constructor
  · intro s h
    have he : encode s = s := encode_unreserved_eq_self h
    exact ⟨he, by rw [he]; exact he⟩
  · intro s h
    exact pdecode_encode h

/-- Witness for C8: the identities evaluated at `"abc"` and at the
reserved byte `=`. -/
theorem encode_idempotent_and_invertible_witness :
    (encode [97, 98, 99] = [97, 98, 99]
      ∧ encode (encode [97, 98, 99]) = encode [97, 98, 99])
    ∧ pdecode (encode [61, 97]) = [61, 97] :=
  ⟨encode_idempotent_and_invertible.1 [97, 98, 99] (by decide),
    encode_idempotent_and_invertible.2 [61, 97] (by decide)⟩

theorem mem_keys_filter (param : Param) (k : Bytes) (pred : Bytes → Bool) :
    k ∈ keys (param.filter fun kv => pred kv.1) ↔ k ∈ keys param ∧ pred k = true := by
  simp only [keys, List.mem_map, List.mem_filter]
  constructor
  · rintro ⟨kv, ⟨hm, hp⟩, rfl⟩
    exact ⟨⟨kv, hm, rfl⟩, hp⟩
  · rintro ⟨⟨kv, hm, rfl⟩, hp⟩
    exact ⟨kv, ⟨hm, hp⟩, rfl⟩

/-- C4.  Every key of a parameter set lands in the `header` selection
exactly when it starts with `oauth_` and in the `body` selection exactly
when it does not; the two selections are disjoint and together cover the
parameter set. -/
theorem header_body_partition : ∀ (param : Param) (k : Bytes),
    (k ∈ keys (headerSel param) ↔ k ∈ keys param ∧ startsWithOauth k = true)
    ∧ (k ∈ keys (bodySel param) ↔ k ∈ keys param ∧ startsWithOauth k = false)
    ∧ ¬(k ∈ keys (headerSel param) ∧ k ∈ keys (bodySel param))
    ∧ (k ∈ keys param → (k ∈ keys (headerSel param) ∨ k ∈ keys (bodySel param))) := by
  intro param k
  have hh := mem_keys_filter param k startsWithOauth
  have hb : k ∈ keys (bodySel param) ↔ k ∈ keys param ∧ startsWithOauth k = false := by
    simpa only [Bool.not_eq_true'] using mem_keys_filter param k fun x => !startsWithOauth x
  refine ⟨hh, hb, ?_, ?_⟩
  · rintro ⟨h1, h2⟩
    have e1 := (hh.mp h1).2
    have e2 := (hb.mp h2).2
    rw [e1] at e2
    exact Bool.noConfusion e2
  · intro hk
    cases ho : startsWithOauth k with
    | true => exact Or.inl (hh.mpr ⟨hk, ho⟩)
    | false => exact Or.inr (hb.mpr ⟨hk, ho⟩)

/-- Witness for C4: the partition evaluated on a concrete two-entry
parameter set at the key `oauth_nonce`. -/
theorem header_body_partition_witness :
    (kOauthNonce ∈ keys (headerSel [(kOauthNonce, [65]), ([120], [66])])
      ↔ kOauthNonce ∈ keys [(kOauthNonce, [65]), ([120], [66])]
        ∧ startsWithOauth kOauthNonce = true)
    ∧ (kOauthNonce ∈ keys (bodySel [(kOauthNonce, [65]), ([120], [66])])
      ↔ kOauthNonce ∈ keys [(kOauthNonce, [65]), ([120], [66])]
        ∧ startsWithOauth kOauthNonce = false)
    ∧ ¬(kOauthNonce ∈ keys (headerSel [(kOauthNonce, [65]), ([120], [66])])
        ∧ kOauthNonce ∈ keys (bodySel [(kOauthNonce, [65]), ([120], [66])]))
    ∧ (kOauthNonce ∈ keys [(kOauthNonce, [65]), ([120], [66])] →
        (kOauthNonce ∈ keys (headerSel [(kOauthNonce, [65]), ([120], [66])])
          ∨ kOauthNonce ∈ keys (bodySel [(kOauthNonce, [65]), ([120], [66])]))) :=
  header_body_partition [(kOauthNonce, [65]), ([120], [66])] kOauthNonce

/-- C5 (amended).  The header output is the literal `"OAuth "` followed by
the `oauth_` entries rendered as `key="encoded value"` and joined by
`", "`; the body output is the remaining entries rendered as
`key=encoded value` and joined by `&`; within each output the entries are
sorted by byte-wise lexicographic comparison of the whole rendered entry
string (values encoded with `encode`). -/
theorem header_body_render_contract : ∀ param : Param,
    header param = litOAuthSpace ++ joinWith [44, 32] (headerPairs param)
    ∧ List.Sorted lexRel (headerPairs param)
    ∧ (headerPairs param).Perm ((headerSel param).map renderHeaderEntry)
    ∧ body param = joinWith [38] (bodyPairs param)
    ∧ List.Sorted lexRel (bodyPairs param)
    ∧ (bodyPairs param).Perm ((bodySel param).map renderBodyEntry) := by
  intro param
  exact ⟨rfl, List.sorted_insertionSort lexRel _, List.perm_insertionSort lexRel _,
    rfl, List.sorted_insertionSort lexRel _, List.perm_insertionSort lexRel _⟩

/-- The parameter set `{x: A, x1: B}` (two non-`oauth_` keys, one a proper
prefix of the other), on which sorting by rendered entry differs from
sorting by key. -/
def cexParam : Param := [([120], [65]), ([120, 49], [66])]

/-- Counterexample to C5 as stated: on `{x: A, x1: B}` the body output is
`"x1=B&x=A"` (sorted by whole rendered entry, since `'1' < '='`), not the
key-sorted `"x=A&x1=B"` the claim requires, even though key `"x"`
strictly precedes key `"x1"`. -/
theorem body_not_sorted_by_key :
    bodySel cexParam = cexParam
    ∧ lexLe [120] [120, 49] = true
    ∧ [120] ≠ ([120, 49] : Bytes)
    ∧ body cexParam = [120, 49, 61, 66, 38, 120, 61, 65]
    ∧ bodyByKey cexParam = [120, 61, 65, 38, 120, 49, 61, 66]
    ∧ body cexParam ≠ bodyByKey cexParam := by decide

/-- C7.  `send` yields the response bytes exactly when the status is 200;
any other status becomes an HTTP-status error carrying that exact code
(401 in the concrete scenario); a transport failure arising before a
status exists is propagated unchanged. -/
theorem send_contract :
    (∀ e : Bytes, send (Except.error e) = Except.error (OauthError.transport e))
    ∧ (∀ (st : Nat) (bs : Bytes), send (Except.ok ⟨st, bs⟩) = Except.ok bs ↔ st = 200)
    ∧ (∀ (st : Nat) (bs : Bytes), st ≠ 200 →
        send (Except.ok ⟨st, bs⟩) = Except.error (OauthError.httpStatus st))
    ∧ send (Except.ok ⟨401, []⟩) = Except.error (OauthError.httpStatus 401) := by
  refine ⟨fun e => rfl, ?_, ?_, rfl⟩
  · intro st bs
    by_cases h : st = 200 <;> simp [send, h]
  · intro st bs h
    simp [send, h]

/-- Witness for C7: a 404 response with payload surfaces as an HTTP-status
error carrying 404. -/
theorem send_contract_witness :
    send (Except.ok ⟨404, [1, 2]⟩) = Except.error (OauthError.httpStatus 404) :=
  send_contract.2.2.1 404 [1, 2] (by decide)

/-! ### Lemmas about the parameter map -/

theorem keys_cons (kv : Bytes × Bytes) (rest : Param) : keys (kv :: rest) = kv.1 :: keys rest := rfl

theorem insert_param_nil (k v : Bytes) : insert_param [] k v = [(k, v)] := rfl

theorem insert_param_cons_pos {kv : Bytes × Bytes} {k : Bytes} (h : kv.1 = k) (v : Bytes)
    (rest : Param) : insert_param (kv :: rest) k v = (k, v) :: rest := by
  unfold insert_param
  rw [if_pos h]

theorem insert_param_cons_neg {kv : Bytes × Bytes} {k : Bytes} (h : kv.1 ≠ k) (v : Bytes)
    (rest : Param) : insert_param (kv :: rest) k v = kv :: insert_param rest k v := by
  conv_lhs => unfold insert_param
  rw [if_neg h]

theorem keys_nodup_of_perm {p q : Param} (h : p.Perm q) (hnd : (keys p).Nodup) :
    (keys q).Nodup :=
  (h.map fun kv : Bytes × Bytes => kv.1).nodup hnd

theorem mem_keys_insert_param {x : Bytes} : ∀ {p : Param} {k v : Bytes},
    x ∈ keys (insert_param p k v) ↔ x ∈ keys p ∨ x = k
  | [], k, v => by
    rw [insert_param_nil, keys_cons]
    simp [keys]
  | kv :: rest, k, v => by
    by_cases h : kv.1 = k
    · rw [insert_param_cons_pos h, keys_cons, keys_cons, List.mem_cons, List.mem_cons, h]
      tauto
    · rw [insert_param_cons_neg h, keys_cons, keys_cons, List.mem_cons, List.mem_cons,
        mem_keys_insert_param]
      tauto

theorem nodup_keys_insert_param (k v : Bytes) : ∀ {p : Param},
    (keys p).Nodup → (keys (insert_param p k v)).Nodup
  | [], _ => by
    rw [insert_param_nil, keys_cons]
    simp [keys]
  | kv :: rest, h => by
    rw [keys_cons, List.nodup_cons] at h
    by_cases hk : kv.1 = k
    · rw [insert_param_cons_pos hk, keys_cons, List.nodup_cons]
      exact ⟨hk ▸ h.1, h.2⟩
    · rw [insert_param_cons_neg hk, keys_cons, List.nodup_cons]
      refine ⟨fun hmem => ?_, nodup_keys_insert_param k v h.2⟩
      rcases mem_keys_insert_param.mp hmem with hx | hx
      · exact h.1 hx
      · exact hk hx

theorem nodup_keys_insertAll : ∀ (l : Param) {p : Param},
    (keys p).Nodup → (keys (insertAll p l)).Nodup
  | [], _, h => h
  | kv :: rest, p, h => by
    simp only [insertAll, List.foldl_cons]
    exact nodup_keys_insertAll rest (nodup_keys_insert_param kv.1 kv.2 h)

theorem insert_param_comm {xk yk : Bytes} (hxy : xk ≠ yk) (xv yv : Bytes) :
    ∀ p : Param, (insert_param (insert_param p xk xv) yk yv).Perm
      (insert_param (insert_param p yk yv) xk xv)
  | [] => by
    rw [insert_param_nil, insert_param_nil,
      insert_param_cons_neg (show (xk, xv).1 ≠ yk from hxy) yv [],
      insert_param_cons_neg (show (yk, yv).1 ≠ xk from fun e => hxy e.symm) xv [],
      insert_param_nil, insert_param_nil]
    exact List.Perm.swap _ _ _
  | kv :: rest => by
    by_cases h1 : kv.1 = xk
    · have h2 : kv.1 ≠ yk := fun e => hxy (h1 ▸ e)
      have e1 := insert_param_cons_pos h1 xv rest
      have e2 : insert_param ((xk, xv) :: rest) yk yv = (xk, xv) :: insert_param rest yk yv :=
        insert_param_cons_neg (show (xk, xv).1 ≠ yk from hxy) yv rest
      have e3 := insert_param_cons_neg h2 yv rest
      have e4 : insert_param (kv :: insert_param rest yk yv) xk xv =
          (xk, xv) :: insert_param rest yk yv :=
        insert_param_cons_pos h1 xv _
      rw [e1, e2, e3, e4]
    · by_cases h2 : kv.1 = yk
      · have e1 := insert_param_cons_neg h1 xv rest
        have e2 : insert_param (kv :: insert_param rest xk xv) yk yv =
            (yk, yv) :: insert_param rest xk xv :=
          insert_param_cons_pos h2 yv _
        have e3 := insert_param_cons_pos h2 yv rest
        have e4 : insert_param ((yk, yv) :: rest) xk xv = (yk, yv) :: insert_param rest xk xv :=
          insert_param_cons_neg (show (yk, yv).1 ≠ xk from fun e => hxy e.symm) xv rest
        rw [e1, e2, e3, e4]
      · have e1 := insert_param_cons_neg h1 xv rest
        have e2 : insert_param (kv :: insert_param rest xk xv) yk yv =
            kv :: insert_param (insert_param rest xk xv) yk yv :=
          insert_param_cons_neg h2 yv _
        have e3 := insert_param_cons_neg h2 yv rest
        have e4 : insert_param (kv :: insert_param rest yk yv) xk xv =
            kv :: insert_param (insert_param rest yk yv) xk xv :=
          insert_param_cons_neg h1 xv _
        rw [e1, e2, e3, e4]
        exact List.Perm.cons kv (insert_param_comm hxy xv yv rest)

theorem insert_param_perm (k v : Bytes) {p q : Param} (h : p.Perm q) :
    (keys p).Nodup → (insert_param p k v).Perm (insert_param q k v) := by
  induction h with
  | nil => intro _; exact List.Perm.refl _
  | cons x hpq ih =>
    intro hnd
    rw [keys_cons, List.nodup_cons] at hnd
    by_cases hx : x.1 = k
    · rw [insert_param_cons_pos hx, insert_param_cons_pos hx]
      exact hpq.cons _
    · rw [insert_param_cons_neg hx, insert_param_cons_neg hx]
      exact (ih hnd.2).cons x
  | swap x y l =>
    intro hnd
    rw [keys_cons, keys_cons, List.nodup_cons, List.mem_cons] at hnd
    have hxy : y.1 ≠ x.1 := fun e => hnd.1 (Or.inl e)
    by_cases hy : y.1 = k
    · have hx : x.1 ≠ k := fun e => hxy (hy.trans e.symm)
      rw [insert_param_cons_pos hy v (x :: l), insert_param_cons_neg hx v (y :: l),
        insert_param_cons_pos hy v l]
      exact List.Perm.swap x (k, v) l
    · by_cases hx : x.1 = k
      · rw [insert_param_cons_neg hy v (x :: l), insert_param_cons_pos hx v l,
          insert_param_cons_pos hx v (y :: l)]
        exact List.Perm.swap (k, v) y l
      · rw [insert_param_cons_neg hy v (x :: l), insert_param_cons_neg hx v l,
          insert_param_cons_neg hx v (y :: l), insert_param_cons_neg hy v l]
        exact List.Perm.swap x y _
  | trans h1 h2 ih1 ih2 =>
    intro hnd
    exact (ih1 hnd).trans (ih2 (keys_nodup_of_perm h1 hnd))

theorem insertAll_perm_base : ∀ (l : Param) {p q : Param}, p.Perm q → (keys p).Nodup →
    (insertAll p l).Perm (insertAll q l)
  | [], _, _, h, _ => h
  | kv :: rest, p, q, h, hnd => by
    simp only [insertAll, List.foldl_cons]
    exact insertAll_perm_base rest (insert_param_perm kv.1 kv.2 h hnd)
      (nodup_keys_insert_param kv.1 kv.2 hnd)

theorem insertAll_perm_list {l1 l2 : Param} (h : l1.Perm l2) :
    ∀ {p : Param}, (keys l1).Nodup → (keys p).Nodup →
      (insertAll p l1).Perm (insertAll p l2) := by
  induction h with
  | nil => intro p _ _; exact List.Perm.refl _
  | cons x hpq ih =>
    intro p hl hp
    rw [keys_cons, List.nodup_cons] at hl
    simp only [insertAll, List.foldl_cons]
    exact ih hl.2 (nodup_keys_insert_param x.1 x.2 hp)
  | swap x y l =>
    intro p hl hp
    rw [keys_cons, keys_cons, List.nodup_cons, List.mem_cons] at hl
    have hxy : y.1 ≠ x.1 := fun e => hl.1 (Or.inl e)
    simp only [insertAll, List.foldl_cons]
    exact insertAll_perm_base l (insert_param_comm hxy y.2 x.2 p)
      (nodup_keys_insert_param x.1 x.2 (nodup_keys_insert_param y.1 y.2 hp))
  | trans h1 h2 ih1 ih2 =>
    intro p hl hp
    exact (ih1 hl hp).trans (ih2 (keys_nodup_of_perm h1 hl) hp)

theorem sortStrings_eq_of_perm {l1 l2 : List Bytes} (h : l1.Perm l2) :
    sortStrings l1 = sortStrings l2 :=
  List.eq_of_perm_of_sorted
    ((List.perm_insertionSort lexRel l1).trans (h.trans (List.perm_insertionSort lexRel l2).symm))
    (List.sorted_insertionSort lexRel l1) (List.sorted_insertionSort lexRel l2)

/-- `join_query` depends only on the parameter set, not on the iteration
order of the underlying map. -/
theorem join_query_perm {p q : Param} (h : p.Perm q) : join_query p = join_query q := by
  unfold join_query queryPairs
  rw [sortStrings_eq_of_perm (h.map renderQueryEntry)]

/-- `header` depends only on the parameter set. -/
theorem header_perm {p q : Param} (h : p.Perm q) : header p = header q := by
  unfold header headerPairs headerSel
  rw [sortStrings_eq_of_perm ((h.filter _).map renderHeaderEntry)]

/-- `body` depends only on the parameter set. -/
theorem body_perm {p q : Param} (h : p.Perm q) : body p = body q := by
  unfold body bodyPairs bodySel
  rw [sortStrings_eq_of_perm ((h.filter _).map renderBodyEntry)]

theorem keys_protoParams_none (c : Token) (n ts : Bytes) :
    keys (protoParams c none n ts) =
      [kOauthConsumerKey, kOauthNonce, kOauthSignatureMethod, kOauthTimestamp, kOauthVersion] :=
  rfl

theorem keys_protoParams_some (c tk : Token) (n ts : Bytes) :
    keys (protoParams c (some tk) n ts) =
      [kOauthConsumerKey, kOauthNonce, kOauthSignatureMethod, kOauthTimestamp, kOauthVersion,
        kOauthToken] :=
  rfl

theorem nodup_keys_protoParams (c : Token) (token : Option Token) (n ts : Bytes) :
    (keys (protoParams c token n ts)).Nodup := by
  cases token with
  | none =>
    rw [keys_protoParams_none]
    decide
  | some tk =>
    rw [keys_protoParams_some]
    decide

/-- C6.  With the nonce and timestamp injected as fixed values,
`get_header` (hence `authorization_header`) is a function of the parameter
set alone: reordering the caller's parameter list — the model of the
unspecified iteration order of the backing hash map — leaves both the
header and the body byte-identical (and two calls on literally identical
inputs are identical because `get_header` is a pure function). -/
theorem get_header_deterministic :
    ∀ (method uri : Bytes) (consumer : Token) (token : Option Token) (nonce ts : Bytes)
      (other1 other2 : Param),
    other1.Perm other2 → (keys other1).Nodup →
    get_header method uri consumer token (some other1) nonce ts =
      get_header method uri consumer token (some other2) nonce ts := by
  intro method uri consumer token nonce ts other1 other2 hperm hnd
  have hp6 : (keys (protoParams consumer token nonce ts)).Nodup :=
    nodup_keys_protoParams consumer token nonce ts
  have hperm7 : (allParams consumer token (some other1) nonce ts).Perm
      (allParams consumer token (some other2) nonce ts) :=
    insertAll_perm_list hperm hnd hp6
  have hnd7 : (keys (allParams consumer token (some other1) nonce ts)).Nodup :=
    nodup_keys_insertAll other1 hp6
  have hjq : join_query (allParams consumer token (some other1) nonce ts) =
      join_query (allParams consumer token (some other2) nonce ts) :=
    join_query_perm hperm7
  have hperm8 : (finalParams method uri consumer token (some other1) nonce ts).Perm
      (finalParams method uri consumer token (some other2) nonce ts) := by
    show (insert_param (allParams consumer token (some other1) nonce ts) kOauthSignature
        (signature method uri (join_query (allParams consumer token (some other1) nonce ts))
          consumer.secret (token.map Token.secret))).Perm
      (insert_param (allParams consumer token (some other2) nonce ts) kOauthSignature
        (signature method uri (join_query (allParams consumer token (some other2) nonce ts))
          consumer.secret (token.map Token.secret)))
    rw [hjq]
    exact insert_param_perm _ _ hperm7 hnd7
  show (header (finalParams method uri consumer token (some other1) nonce ts),
      body (finalParams method uri consumer token (some other1) nonce ts)) =
    (header (finalParams method uri consumer token (some other2) nonce ts),
      body (finalParams method uri consumer token (some other2) nonce ts))
  rw [header_perm hperm8, body_perm hperm8]

/-- Witness for C6: two orderings of the same two caller parameters give
identical header and body. -/
theorem get_header_deterministic_witness :
    get_header [71, 69, 84] [117] ⟨[107], [115]⟩ none
        (some [([97], [49]), ([98], [50])]) [78] [48] =
      get_header [71, 69, 84] [117] ⟨[107], [115]⟩ none
        (some [([98], [50]), ([97], [49])]) [78] [48] :=
  get_header_deterministic [71, 69, 84] [117] ⟨[107], [115]⟩ none [78] [48]
    [([97], [49]), ([98], [50])] [([98], [50]), ([97], [49])] (by decide) (by decide)

/-! ### Lookup lemmas for the collision claim -/

theorem lookupP_nil (k : Bytes) : lookupP [] k = none := rfl

theorem lookupP_cons_pos {kv : Bytes × Bytes} {k : Bytes} (h : kv.1 = k) (rest : Param) :
    lookupP (kv :: rest) k = some kv.2 := by
  conv_lhs => unfold lookupP
  rw [if_pos h]

theorem lookupP_cons_neg {kv : Bytes × Bytes} {k : Bytes} (h : kv.1 ≠ k) (rest : Param) :
    lookupP (kv :: rest) k = lookupP rest k := by
  conv_lhs => unfold lookupP
  rw [if_neg h]

theorem insertAll_nil (p : Param) : insertAll p [] = p := rfl

theorem insertAll_cons (p : Param) (kv : Bytes × Bytes) (rest : Param) :
    insertAll p (kv :: rest) = insertAll (insert_param p kv.1 kv.2) rest := rfl

theorem lookupP_insert_param_self : ∀ (p : Param) (k v : Bytes),
    lookupP (insert_param p k v) k = some v
  | [], k, v => by
    rw [insert_param_nil, lookupP_cons_pos rfl]
  | kv :: rest, k, v => by
    by_cases h : kv.1 = k
    · rw [insert_param_cons_pos h, lookupP_cons_pos rfl]
    · rw [insert_param_cons_neg h, lookupP_cons_neg h]
      exact lookupP_insert_param_self rest k v

theorem lookupP_insert_param_ne {k kq : Bytes} (hne : k ≠ kq) (v : Bytes) :
    ∀ p : Param, lookupP (insert_param p k v) kq = lookupP p kq
  | [] => by
    rw [insert_param_nil, lookupP_cons_neg hne]
  | kv :: rest => by
    by_cases h : kv.1 = k
    · rw [insert_param_cons_pos h, lookupP_cons_neg hne, lookupP_cons_neg (h ▸ hne : kv.1 ≠ kq)]
    · rw [insert_param_cons_neg h]
      by_cases h2 : kv.1 = kq
      · rw [lookupP_cons_pos h2, lookupP_cons_pos h2]
      · rw [lookupP_cons_neg h2, lookupP_cons_neg h2]
        exact lookupP_insert_param_ne hne v rest

theorem lookupP_insertAll_not_mem {k : Bytes} : ∀ (l : Param) (p : Param), k ∉ keys l →
    lookupP (insertAll p l) k = lookupP p k
  | [], _, _ => rfl
  | kv :: rest, p, h => by
    rw [keys_cons, List.mem_cons] at h
    push_neg at h
    rw [insertAll_cons, lookupP_insertAll_not_mem rest _ h.2,
      lookupP_insert_param_ne (Ne.symm h.1) kv.2 p]

theorem lookupP_insertAll_mem {k v : Bytes} : ∀ (l : Param) (p : Param), (keys l).Nodup →
    (k, v) ∈ l → lookupP (insertAll p l) k = some v
  | [], _, _, hm => absurd hm (List.not_mem_nil _)
  | kv :: rest, p, hnd, hm => by
    rw [keys_cons, List.nodup_cons] at hnd
    rw [insertAll_cons]
    rcases List.mem_cons.mp hm with he | hm2
    · have hk : kv.1 = k := congrArg Prod.fst he.symm
      have hkr : k ∉ keys rest := hk ▸ hnd.1
      rw [show insert_param p kv.1 kv.2 = insert_param p k v from by rw [← he],
        lookupP_insertAll_not_mem rest _ hkr, lookupP_insert_param_self]
    · exact lookupP_insertAll_mem rest _ hnd.2 hm2

theorem mem_of_lookupP : ∀ {p : Param} {k v : Bytes}, lookupP p k = some v → (k, v) ∈ p
  | [], _, _, h => by
    rw [lookupP_nil] at h
    exact absurd h (by simp)
  | kv :: rest, k, v, h => by
    by_cases he : kv.1 = k
    · rw [lookupP_cons_pos he] at h
      have hv : kv.2 = v := Option.some.inj h
      have hkv : kv = (k, v) := Prod.ext he hv
      rw [← hkv]
      exact List.mem_cons_self kv rest
    · rw [lookupP_cons_neg he] at h
      exact List.mem_cons_of_mem kv (mem_of_lookupP h)

theorem renderHeaderEntry_mem_headerPairs {p : Param} {kv : Bytes × Bytes}
    (hm : kv ∈ p) (ho : startsWithOauth kv.1 = true) :
    renderHeaderEntry kv ∈ headerPairs p := by
  unfold headerPairs sortStrings
  exact ((List.perm_insertionSort lexRel _).mem_iff).mpr
    (List.mem_map_of_mem renderHeaderEntry (List.mem_filter.mpr ⟨hm, ho⟩))

/-- C10.  A caller-supplied parameter overrides the generated value of the
same key in the signed parameter map (last write wins — this covers the
generated keys `oauth_consumer_key`, `oauth_nonce`,
`oauth_signature_method`, `oauth_timestamp`, `oauth_version` and
`oauth_token`), and the caller's value is the one in the map that feeds
the signed canonical string and, for `oauth_`-keys, the emitted header;
`oauth_signature` alone is always overwritten after signing with the
computed signature, which therefore always appears in the final header. -/
theorem caller_params_last_write_wins :
    ∀ (method uri : Bytes) (consumer : Token) (token : Option Token)
      (other : Param) (nonce ts : Bytes),
    (keys other).Nodup →
    (∀ k v : Bytes, (k, v) ∈ other →
        lookupP (allParams consumer token (some other) nonce ts) k = some v)
    ∧ (∀ k v : Bytes, (k, v) ∈ other → k ≠ kOauthSignature →
        lookupP (finalParams method uri consumer token (some other) nonce ts) k = some v)
    ∧ lookupP (finalParams method uri consumer token (some other) nonce ts) kOauthSignature
        = some (signature method uri
            (join_query (allParams consumer token (some other) nonce ts))
            consumer.secret (token.map Token.secret))
    ∧ renderHeaderEntry (kOauthSignature,
          signature method uri (join_query (allParams consumer token (some other) nonce ts))
            consumer.secret (token.map Token.secret))
        ∈ headerPairs (finalParams method uri consumer token (some other) nonce ts)
    ∧ (∀ k v : Bytes, (k, v) ∈ other → k ≠ kOauthSignature → startsWithOauth k = true →
        renderHeaderEntry (k, v)
          ∈ headerPairs (finalParams method uri consumer token (some other) nonce ts)) := by
  intro method uri consumer token other nonce ts hnd
  have h1 : ∀ k v : Bytes, (k, v) ∈ other →
      lookupP (allParams consumer token (some other) nonce ts) k = some v := by
    intro k v hm
    exact lookupP_insertAll_mem other _ hnd hm
  have h2 : ∀ k v : Bytes, (k, v) ∈ other → k ≠ kOauthSignature →
      lookupP (finalParams method uri consumer token (some other) nonce ts) k = some v := by
    intro k v hm hks
    unfold finalParams
    rw [lookupP_insert_param_ne (Ne.symm hks) _ _]
    exact h1 k v hm
  have h3 : lookupP (finalParams method uri consumer token (some other) nonce ts)
      kOauthSignature = some (signature method uri
        (join_query (allParams consumer token (some other) nonce ts))
        consumer.secret (token.map Token.secret)) := by
    unfold finalParams
    exact lookupP_insert_param_self _ _ _
  refine ⟨h1, h2, h3, ?_, ?_⟩
  · exact renderHeaderEntry_mem_headerPairs (mem_of_lookupP h3) rfl
  · intro k v hm hks ho
    exact renderHeaderEntry_mem_headerPairs (mem_of_lookupP (h2 k v hm hks)) ho

/-- Witness for C10: a caller-supplied `oauth_nonce` value `"Z"` overrides
the generated nonce `"N"` both in the signed map and in the final map. -/
theorem caller_params_last_write_wins_witness :
    lookupP (allParams ⟨[107], [115]⟩ none (some [(kOauthNonce, [90])]) [78] [48])
        kOauthNonce = some [90]
    ∧ lookupP (finalParams [71, 69, 84] [117] ⟨[107], [115]⟩ none
        (some [(kOauthNonce, [90])]) [78] [48]) kOauthNonce = some [90] :=
  ⟨(caller_params_last_write_wins [71, 69, 84] [117] ⟨[107], [115]⟩ none
      [(kOauthNonce, [90])] [78] [48] (by decide)).1 kOauthNonce [90] (by decide),
    (caller_params_last_write_wins [71, 69, 84] [117] ⟨[107], [115]⟩ none
      [(kOauthNonce, [90])] [78] [48] (by decide)).2.1 kOauthNonce [90] (by decide) (by decide)⟩

end OauthClient
